import Mathlib

/-!
POMPR-FUN prompt composer: a shallow embedding of `app_Pre-action_fix.js`.

JavaScript strings are modelled as lists of characters (`Str`); every string
the program compares against or emits is ASCII, and the case mappings are
exact on every character whose mapped form holds an ASCII character.  The global
`PFState` object becomes a record that every function receives explicitly; the
two text areas the code writes to (`el.editPrompt`, `el.compiledOutput`) are
passed and returned as plain strings.  The pattern scale is an `Int`.
-/

namespace PomprFun

/-- A JavaScript string, as the list of its characters. -/
abbrev Str := List Char

/-! ## String primitives used by the source -/

/-- The lower-case form of one character.  `A`–`Z` become `a`–`z`; the Kelvin
sign U+212A becomes `k` and U+0130 becomes `i` followed by U+0307, the only
characters outside ASCII whose lower-case form holds an ASCII character.  Any
other character is kept: its lower-case form holds no ASCII character, and
which non-ASCII characters it holds is not modelled. -/
def lowerChar (c : Char) : Str :=
  if c = '\u212A' then ['k']
  else if c = '\u0130' then ['i', '\u0307']
  else [c.toLower]

/-- `String.prototype.toLowerCase`.  Every string the program searches for in
a lower-cased text is ASCII, so each such test has the answer it has in
JavaScript. -/
def toLowerCase (s : Str) : Str := s.flatMap lowerChar

/-- The characters outside ASCII whose upper-case form holds an ASCII
character, with that form (from the Unicode case mappings): sharp s, dotless
i, long s, the ligatures U+FB00–U+FB06 and six letters that decompose. -/
def upperSpecial : List (Char × Str) :=
  [('\u00DF', ['S', 'S']), ('\u0131', ['I']), ('\u0149', ['\u02BC', 'N']),
   ('\u017F', ['S']), ('\u01F0', ['J', '\u030C']), ('\u1E96', ['H', '\u0331']),
   ('\u1E97', ['T', '\u0308']), ('\u1E98', ['W', '\u030A']), ('\u1E99', ['Y', '\u030A']),
   ('\u1E9A', ['A', '\u02BE']), ('\uFB00', ['F', 'F']), ('\uFB01', ['F', 'I']),
   ('\uFB02', ['F', 'L']), ('\uFB03', ['F', 'F', 'I']), ('\uFB04', ['F', 'F', 'L']),
   ('\uFB05', ['S', 'T']), ('\uFB06', ['S', 'T'])]

/-- The upper-case form of one character.  `a`–`z` become `A`–`Z` and the
characters of `upperSpecial` take the form listed there.  Any other character
is kept: its upper-case form holds no ASCII character, and which non-ASCII
characters it holds is not modelled. -/
def upperChar (c : Char) : Str :=
  match upperSpecial.lookup c with
  | some u => u
  | none => [c.toUpper]

/-- `String.prototype.toUpperCase`.  The result is ASCII exactly when it is in
JavaScript, and then it is the same string. -/
def toUpperCase (s : Str) : Str := s.flatMap upperChar

/-- `String.prototype.includes`: `sub` occurs in `s` as a contiguous block. -/
def includes : Str → Str → Bool
  | [], sub => sub.isPrefixOf []
  | c :: cs, sub => sub.isPrefixOf (c :: cs) || includes cs sub

/-- `Array.prototype.join` on an array of strings. -/
def join (sep : Str) (parts : List Str) : Str := List.intercalate sep parts

/-- The characters matched by `\s` in a regular expression and removed by
`String.prototype.trim` (ECMAScript WhiteSpace and LineTerminator). -/
def isWhiteSpace (c : Char) : Bool :=
  let n := c.toNat
  n == 0x09 || n == 0x0A || n == 0x0B || n == 0x0C || n == 0x0D || n == 0x20 ||
  n == 0xA0 || n == 0x1680 || (0x2000 ≤ n && n ≤ 0x200A) || n == 0x2028 ||
  n == 0x2029 || n == 0x202F || n == 0x205F || n == 0x3000 || n == 0xFEFF

/-- `String.prototype.trim`: leading and trailing white space removed. -/
def trim (s : Str) : Str :=
  ((s.dropWhile isWhiteSpace).reverse.dropWhile isWhiteSpace).reverse

/-! ## Regular expressions of the source -/

/-- The case-insensitive canonical form of a character (flag `i` without flag
`u`): the upper-case letter for `a`–`z`.  A character outside ASCII is never
canonicalized into ASCII, so it is kept here. -/
def canonicalize (c : Char) : Char := c.toUpper

/-- Membership of one input character in the class `[0-9A-F]` under flag `i`:
its canonical form is the canonical form of a member of the class. -/
def matchHexClass (c : Char) : Bool :=
  let u := (canonicalize c).toNat
  (48 ≤ u && u ≤ 57) || (65 ≤ u && u ≤ 70)

/-- Match `p{n}`: consume exactly `n` characters, each satisfying `p`, and
return the rest of the input; `none` when the input does not match. -/
def matchRepeat (p : Char → Bool) : Nat → Str → Option Str
  | 0, s => some s
  | _ + 1, [] => none
  | n + 1, c :: cs => if p c then matchRepeat p n cs else none

/-- Source `isValidHex`: `/^#[0-9A-F]{6}$/i.test(hex)`.  The anchors force the
match to start at the first character and to end at the end of the input. -/
def isValidHex (hex : Str) : Bool :=
  match hex with
  | '#' :: rest =>
    match matchRepeat matchHexClass 6 rest with
    | some [] => true
    | _ => false
  | _ => false

/-- A pattern seen from one input position: the length of its match when it
matches the input starting there. -/
abbrev Matcher := Str → Option Nat

/-- Worker of `replaceAll`: scan left to right; `skip` counts the characters
of the current match that are still to be consumed. -/
def replaceAllAux (m : Matcher) (r : Str) : Nat → Str → Str
  | _, [] => []
  | k + 1, _ :: cs => replaceAllAux m r k cs
  | 0, c :: cs =>
    match m (c :: cs) with
    | some (n + 1) => r ++ replaceAllAux m r n cs
    | _ => c :: replaceAllAux m r 0 cs

/-- `s.replace(/pattern/g, r)` for a pattern that never matches the empty
string: at each position, left to right, a match is replaced by `r` and the
scan resumes after it; otherwise the character is copied. -/
def replaceAll (m : Matcher) (r : Str) (s : Str) : Str := replaceAllAux m r 0 s

/-- The pattern `\s+,`: a maximal run of at least one white-space character
directly followed by a comma (a shorter run would be followed by white space,
never by a comma, so backtracking finds no other match). -/
def matchWsComma : Matcher := fun s =>
  let n := (s.takeWhile isWhiteSpace).length
  if 0 < n ∧ (s.drop n).head? = some ',' then some (n + 1) else none

/-- The patterns `,,+` and `\.\.+`: a maximal run of at least two copies of
the character `c`. -/
def matchRun (c : Char) : Matcher := fun s =>
  let n := (s.takeWhile (fun x => x == c)).length
  if 2 ≤ n then some n else none

/-- The punctuation clean-up of `compileFinalPrompt` (source lines 700–703). -/
def cleanup (s : Str) : Str :=
  let t1 := replaceAll matchWsComma ",".toList s
  let t2 := replaceAll (matchRun ',') ",".toList t1
  let t3 := replaceAll (matchRun '.') ".".toList t2
  trim t3

/-! ## Global state -/

/-- One row of a CSV option list. -/
structure Row where
  name : Str
  desc : Str
deriving DecidableEq, Repr

/-- Source `PFState.csvData`. -/
structure CsvData where
  scenes : List Row := []
  characters : List Row := []
  actions : List Row := []
  backgrounds : List Row := []
deriving DecidableEq, Repr

/-- Source `PFState.pattern`. -/
structure Pattern where
  type : Str := []
  hex : Str := []
  scale : Int := 40
  recent : List Str := []
deriving DecidableEq, Repr

/-- Source `PFState`. -/
structure PFState where
  scene : Str := []
  character : Str := []
  action : Str := []
  background : Str := []
  pattern : Pattern := {}
  editorLocked : Bool := true
  csvData : CsvData := {}
deriving DecidableEq, Repr

/-! ## Phrase rules -/

/-- Source `mapScaleToPhrase`. -/
def mapScaleToPhrase (scale : Int) : Str :=
  if scale ≤ 20 then "tiny".toList
  else if scale ≤ 40 then "small".toList
  else if scale ≤ 60 then "medium".toList
  else if scale ≤ 80 then "large".toList
  else "very large".toList

/-- Source `storeRecentColor`, on the history `PFState.pattern.recent`. -/
def storeRecentColor (recent : List Str) (hex : Str) : List Str :=
  if !isValidHex hex then recent
  else
    let filtered := recent.filter (fun c => c ≠ hex)
    let unshifted := hex :: filtered
    if unshifted.length > 5 then unshifted.dropLast else unshifted

/-- The pattern fragment both text builders use (source lines 463–472 and
676–687): the template literal with or without the colour. -/
def patternPhrase (p : Pattern) : Str :=
  let scalePhrase := mapScaleToPhrase p.scale
  if p.hex ≠ [] ∧ isValidHex p.hex then
    "against a ".toList ++ scalePhrase ++ " ".toList ++ p.type ++
      " pattern in ".toList ++ p.hex
  else
    "against a ".toList ++ scalePhrase ++ " ".toList ++ p.type ++ " pattern".toList

/-- Push the three leading fragments (scene, character, action), each only
when it is a non-empty string. -/
def leadingParts (st : PFState) : List Str :=
  let parts : List Str := []
  let parts := if st.scene ≠ [] then parts ++ [st.scene] else parts
  let parts := if st.character ≠ [] then parts ++ [st.character] else parts
  let parts := if st.action ≠ [] then parts ++ [st.action] else parts
  parts

/-! ## The compiler -/

/-- The `isChromaBG` test of `compileFinalPrompt` (source lines 652 and 671),
on the lower-cased background. -/
def isChromaBG (bg : Str) : Bool :=
  includes bg "chroma".toList || includes bg "white screen".toList

/-- The `bgPhrase` computed by `compileFinalPrompt` (source lines 643–660). -/
def compileBgPhrase (background : Str) : Str :=
  let bgPhrase : Str := []
  let bg := toLowerCase background
  if includes bg "chroma".toList || includes bg "white screen".toList then
    let bgPhrase :=
      if includes bg "blue".toList then "against a seamless blue chroma field".toList
      else bgPhrase
    let bgPhrase :=
      if includes bg "green".toList then "against a seamless green chroma field".toList
      else bgPhrase
    let bgPhrase :=
      if includes bg "white".toList then "against a seamless white screen background".toList
      else bgPhrase
    bgPhrase
  else if background ≠ [] then background
  else bgPhrase

/-- The array `parts` of `compileFinalPrompt` right before it is joined. -/
def compileParts (st : PFState) : List Str :=
  let parts := leadingParts st
  let bgPhrase := compileBgPhrase st.background
  let bg := toLowerCase st.background
  let parts := if bgPhrase ≠ [] then parts ++ [bgPhrase] else parts
  let parts :=
    if !isChromaBG bg ∧ st.pattern.type ≠ [] then parts ++ [patternPhrase st.pattern]
    else parts
  parts

/-- Source `compileFinalPrompt`: the text it returns (the same text is stored
in `el.compiledOutput.value`). -/
def compileFinalPrompt (st : PFState) : Str :=
  let finalText := join ", ".toList (compileParts st) ++ ".".toList
  let finalText := cleanup finalText
  if finalText = ".".toList then [] else finalText

/-! ## The editor preview -/

/-- The `backgroundPhrase` computed by `refreshEditor` (source lines 433–444). -/
def editorBgPhrase (background : Str) : Str :=
  let backgroundPhrase : Str := []
  let bg := toLowerCase background
  if includes bg "chroma".toList then
    let backgroundPhrase :=
      if includes bg "blue".toList then "against a seamless blue chroma field".toList
      else backgroundPhrase
    let backgroundPhrase :=
      if includes bg "green".toList then "against a seamless green chroma field".toList
      else backgroundPhrase
    let backgroundPhrase :=
      if includes bg "white".toList then "against a seamless white screen background".toList
      else backgroundPhrase
    backgroundPhrase
  else if background ≠ [] then background
  else backgroundPhrase

/-- The `bgIsChroma` test of `refreshEditor` (source lines 454–459). -/
def editorBgIsChroma (bg : Str) : Bool :=
  includes bg "blue chroma".toList || includes bg "green chroma".toList ||
  includes bg "white chroma".toList || includes bg "white screen".toList

/-- The array `parts` of `refreshEditor` right before it is joined. -/
def editorParts (st : PFState) : List Str :=
  let parts := leadingParts st
  let backgroundPhrase := editorBgPhrase st.background
  let bg := toLowerCase st.background
  let parts := if backgroundPhrase ≠ [] then parts ++ [backgroundPhrase] else parts
  let parts :=
    if !editorBgIsChroma bg ∧ st.pattern.type ≠ [] then parts ++ [patternPhrase st.pattern]
    else parts
  parts

/-- The `finalText` of `refreshEditor` (source lines 481–484). -/
def editorText (st : PFState) : Str :=
  let finalText := join ", ".toList (editorParts st) ++ ".".toList
  if finalText = ".".toList then [] else finalText

/-- Source `refreshEditor`: given the current content of the edit buffer
`el.editPrompt.value`, the content after the call.  When the editor is
unlocked the function returns at once and the buffer is untouched. -/
def refreshEditor (st : PFState) (editPrompt : Str) : Str :=
  if !st.editorLocked then editPrompt
  else editorText st

/-! ## The random source -/

/-- One outcome of `Math.random()`: a fraction `num / den` with
`0 ≤ num / den < 1`.  Products and comparisons are exact (the rounding of
floating-point arithmetic is not modelled). -/
structure Draw where
  num : Nat
  den : Nat
  lt : num < den

/-- `Math.floor(Math.random() * k)` for the outcome `r`. -/
def Draw.floorMul (r : Draw) (k : Nat) : Nat := r.num * k / r.den

/-- `Math.random() < p / q` for the outcome `r` (`0.58` is `58 / 100`). -/
def Draw.below (r : Draw) (p q : Nat) : Bool := decide (r.num * q < p * r.den)

/-- The outcomes of the calls to `Math.random()` that one click on the
randomizer can make, one field per call site (a call that is not reached
leaves its field unused). -/
structure Draws where
  scene : Draw
  character : Draw
  action : Draw
  bgGate : Draw
  background : Draw
  patternGate : Draw
  patternType : Draw
  hex : Draw
  scale : Draw

/-! ## Randomizer helpers -/

/-- Source `isLocationalScene`: the keyword list. -/
def locationalKeywords : List Str :=
  ["airport".toList, "cafe".toList, "beach".toList, "corridor".toList, "street".toList,
   "room".toList, "office".toList, "classroom".toList, "gate".toList, "counter".toList,
   "shoreline".toList, "hallway".toList, "station".toList, "market".toList,
   "alley".toList, "platform".toList, "terminal".toList]

/-- Source `isLocationalScene`. -/
def isLocationalScene (sceneText : Str) : Bool :=
  if sceneText = [] then false
  else locationalKeywords.any (fun keyword => includes (toLowerCase sceneText) keyword)

/-- Source `pickRandom`.  The result `none` stands for both the empty string
returned on an empty array and the `undefined` of an index out of range: the
callers treat the two alike (`?.name || ""`, `|| ""`). -/
def pickRandom {α : Type} (arr : List α) (r : Draw) : Option α :=
  if arr.length = 0 then none
  else arr[r.floorMul arr.length]?

/-- The expression `pickRandom(rows)?.name || ""` of the randomizer. -/
def pickRandomName (rows : List Row) (r : Draw) : Str :=
  match pickRandom rows r with
  | some row => row.name
  | none => []

/-- `Number.prototype.toString(16)` on a natural number: the digits, most
significant first, without leading zeros; `fuel` bounds the number of digits. -/
def toString16Aux : Nat → Nat → Str
  | 0, _ => []
  | fuel + 1, n =>
    if n < 16 then [Nat.digitChar n]
    else toString16Aux fuel (n / 16) ++ [Nat.digitChar (n % 16)]

/-- `Number.prototype.toString(16)` on a natural number. -/
def toString16 (n : Nat) : Str := toString16Aux (n + 1) n

/-- `String.prototype.padStart(targetLength, "0")`. -/
def padStartZero (targetLength : Nat) (s : Str) : Str :=
  List.replicate (targetLength - s.length) '0' ++ s

/-- Source `randomHex`, for the outcome `r` of its call to `Math.random()`. -/
def randomHex (r : Draw) : Str :=
  '#' :: toUpperCase (padStartZero 6 (toString16 (r.floorMul 16777215)))

/-- Source `randomScale`. -/
def randomScale (r : Draw) : Int := (r.floorMul 101 : Nat)

/-- Source `isChromaBackground`. -/
def isChromaBackground (bgName : Str) : Bool :=
  if bgName = [] then false
  else
    let bg := toLowerCase bgName
    includes bg "chroma".toList || includes bg "white screen".toList

/-- The array `patternTypes` of the randomizer. -/
def patternTypes : List Str :=
  ["houndstooth".toList, "diagonal stripe".toList, "dot".toList, "grid".toList,
   "chevron".toList, "leopard".toList, "wavy stripe".toList,
   "windowpane plaid".toList, "tartan plaid".toList,
   "buffalo plaid".toList, "madras plaid".toList, "glen plaid".toList]

/-! ## The application and its event handlers -/

/-- The global state together with the parts of the page the handlers read
and write: the value of the colour field, its `invalid` mark, the colours of
the rendered swatches (each swatch keeps the colour it was rendered with), and
the two text areas.  The drop-down values and the classes of the pattern
panel are not modelled. -/
structure App where
  state : PFState := {}
  patternHexValue : Str := []
  patternHexInvalid : Bool := false
  swatches : List Str := []
  editPrompt : Str := []
  compiledOutput : Str := []

/-- Source `renderRecentColors`: one swatch per recent colour. -/
def renderRecentColors (a : App) : App :=
  { a with swatches := a.state.pattern.recent }

/-- Source `storeRecentColor`, acting on the global state. -/
def storeRecentColorIn (a : App) (hex : Str) : App :=
  { a with state := { a.state with pattern :=
      { a.state.pattern with recent := storeRecentColor a.state.pattern.recent hex } } }

/-- Source `refreshEditor`, acting on the page. -/
def refreshEditorIn (a : App) : App :=
  { a with editPrompt := refreshEditor a.state a.editPrompt }

/-- Source `autoUpdateCompiled`, run by the document-level `input` and
`change` listeners. -/
def autoUpdateCompiled (a : App) : App :=
  if a.state.editorLocked then { a with compiledOutput := compileFinalPrompt a.state }
  else a

/-- The text the colour listener validates (source lines 303–306): the input
in upper case, with a leading `#` added when it has none. -/
def normalizeHexInput (raw : Str) : Str :=
  let val := toUpperCase raw
  if val.head? = some '#' then val else '#' :: val

/-- The `input` listener of the colour field (source lines 302–321), followed
by the document-level `input` listener. -/
def onPatternHexInput (a : App) (raw : Str) : App :=
  let hex := normalizeHexInput raw
  let a := { a with patternHexValue := hex }
  let a :=
    if isValidHex hex then
      let a := { a with patternHexInvalid := false }
      let a := { a with state := { a.state with pattern := { a.state.pattern with hex := hex } } }
      let a := storeRecentColorIn a hex
      let a := renderRecentColors a
      refreshEditorIn a
    else
      { a with patternHexInvalid := true }
  autoUpdateCompiled a

/-- The `click` listener of the `i`-th rendered swatch (source lines
356–364); without such a swatch there is nothing to click. -/
def onSwatchClick (a : App) (i : Nat) : App :=
  match a.swatches[i]? with
  | none => a
  | some color =>
    let a := { a with patternHexValue := color }
    let a := { a with state := { a.state with pattern := { a.state.pattern with hex := color } } }
    let a := storeRecentColorIn a color
    let a := renderRecentColors a
    refreshEditorIn a

/-- The `click` listener of the new-prompt button (source lines 259–283). -/
def onNewPrompt (a : App) : App :=
  let st := { a.state with scene := [], character := [], action := [], background := [] }
  let st := { st with pattern := { type := [], hex := [], scale := 40, recent := [] } }
  let a := { a with state := st, patternHexValue := [], swatches := [] }
  let a := { a with state := { a.state with editorLocked := true } }
  { a with editPrompt := [], compiledOutput := [] }

/-- The `click` listener of the randomizer button (source lines 536–609). -/
def onRandomix (a : App) (d : Draws) : App :=
  let st := a.state
  let st := { st with scene := pickRandomName st.csvData.scenes d.scene }
  let st := { st with character := pickRandomName st.csvData.characters d.character }
  let st := { st with action := pickRandomName st.csvData.actions d.action }
  let st := { st with background := [] }
  let st := { st with pattern := { st.pattern with type := [], hex := [], scale := 40 } }
  let a := { a with state := st, patternHexValue := [], swatches := [] }
  let sceneIsLocational := a.state.scene ≠ [] && isLocationalScene a.state.scene
  let a :=
    if !sceneIsLocational then
      if d.bgGate.below 58 100 then
        let a := { a with state :=
          { a.state with background := pickRandomName a.state.csvData.backgrounds d.background } }
        let chroma := isChromaBackground a.state.background
        if !chroma && d.patternGate.below 28 100 then
          let a := { a with state := { a.state with pattern :=
            { a.state.pattern with type := (pickRandom patternTypes d.patternType).getD [] } } }
          let a := { a with state := { a.state with pattern :=
            { a.state.pattern with hex := randomHex d.hex } } }
          let a := { a with patternHexValue := a.state.pattern.hex }
          let a := { a with state := { a.state with pattern :=
            { a.state.pattern with scale := randomScale d.scale } } }
          let a := storeRecentColorIn a a.state.pattern.hex
          renderRecentColors a
        else a
      else a
    else a
  refreshEditorIn a

/-- The four events that can change the pattern colour. -/
inductive Event where
  | hexInput (raw : Str)
  | swatchClick (i : Nat)
  | randomix (d : Draws)
  | newPrompt

/-- One event handled. -/
def step (a : App) : Event → App
  | Event.hexInput raw => onPatternHexInput a raw
  | Event.swatchClick i => onSwatchClick a i
  | Event.randomix d => onRandomix a d
  | Event.newPrompt => onNewPrompt a

/-- The application after `initializePOMPRFun`, with the option lists it
loaded. -/
def initialApp (csv : CsvData) : App :=
  { state := { csvData := csv } }

/-- The application after a sequence of events. -/
def run (csv : CsvData) (events : List Event) : App :=
  events.foldl step (initialApp csv)

/-- A draw in the lower half, `1 / 4`: it passes both gates of the randomizer. -/
def lowDraw : Draw := { num := 1, den := 4, lt := by decide }

/-- A draw near the top, `99 / 100`: it fails both gates of the randomizer. -/
def highDraw : Draw := { num := 99, den := 100, lt := by decide }

/-- Every call to `Math.random()` returning `1 / 4`. -/
def lowDraws : Draws :=
  { scene := lowDraw, character := lowDraw, action := lowDraw, bgGate := lowDraw,
    background := lowDraw, patternGate := lowDraw, patternType := lowDraw,
    hex := lowDraw, scale := lowDraw }

/-! ## Vocabulary of the specification -/

/-- A hexadecimal digit as the specification spells it: one of `0`–`9`,
`a`–`f`, `A`–`F`. -/
def IsHexDigit (c : Char) : Prop :=
  ('0' ≤ c ∧ c ≤ '9') ∨ ('a' ≤ c ∧ c ≤ 'f') ∨ ('A' ≤ c ∧ c ≤ 'F')

/-- The five scale labels of the specification. -/
def scaleLabels : List Str :=
  ["tiny".toList, "small".toList, "medium".toList, "large".toList, "very large".toList]

/-- A list of six distinct valid colours, one more than the tracker ever holds. -/
def sixColors : List Str :=
  ["#000001".toList, "#000002".toList, "#000003".toList, "#000004".toList,
   "#000005".toList, "#000006".toList]

/-- No white-space character stands directly before a comma. -/
def NoWsComma (s : Str) : Prop :=
  List.Chain' (fun a b => ¬ (isWhiteSpace a = true ∧ b = ',')) s

/-- No two neighbouring characters are both `c`. -/
def NoDouble (c : Char) (s : Str) : Prop :=
  List.Chain' (fun a b => ¬ (a = c ∧ b = c)) s

/-- A fragment the clean-up has nothing to do on: no comma, no period, no
white space at either end. -/
def Plain (s : Str) : Prop :=
  ',' ∉ s ∧ '.' ∉ s ∧ (∀ c ∈ s.head?, isWhiteSpace c = false) ∧
    (∀ c ∈ s.getLast?, isWhiteSpace c = false)

/-- The three punctuation conditions together. -/
def Tidy (t : Str) : Prop := NoWsComma t ∧ NoDouble ',' t ∧ NoDouble '.' t

/-- Option lists whose only scene is `corridor` and whose only background is
`wooden deck`. -/
def corridorOptions : CsvData :=
  { scenes := [{ name := "corridor".toList, desc := [] }],
    backgrounds := [{ name := "wooden deck".toList, desc := [] }] }

/-- Option lists whose only scene is `MARKET` spelled with the Kelvin sign
U+212A, which `toLowerCase` turns into `k`. -/
def kelvinOptions : CsvData :=
  { scenes := [{ name := ['M', 'A', 'R', '\u212A', 'E', 'T'], desc := [] }],
    backgrounds := [{ name := "wooden deck".toList, desc := [] }] }

/-- The bound of the recent-colour history: at most five entries, no value
twice. -/
def RecentOk (recent : List Str) : Prop := recent.length ≤ 5 ∧ recent.Nodup

/-- The pattern colour is unset or a valid hex colour. -/
def HexOk (a : App) : Prop :=
  a.state.pattern.hex = [] ∨ isValidHex a.state.pattern.hex = true

/-- Every colour the page can hand back is valid: the pattern colour when
set, each rendered swatch and each recent colour. -/
def ColoursOk (a : App) : Prop :=
  HexOk a ∧ (∀ c ∈ a.swatches, isValidHex c = true) ∧
    (∀ c ∈ a.state.pattern.recent, isValidHex c = true)

/-! ## Hex validation -/

theorem toUpper_toNat (c : Char) :
    c.toUpper.toNat = if 97 ≤ c.toNat ∧ c.toNat ≤ 122 then c.toNat - 32 else c.toNat := by
  unfold Char.toUpper
  simp only [ge_iff_le]
  split
  · rename_i h
    have hv : (c.toNat - 32).isValidChar := by
      left; omega
    unfold Char.ofNat
    rw [dif_pos hv]
    simp [Char.ofNatAux, Char.toNat, UInt32.toNat]
  · rfl

theorem isHexDigit_iff (c : Char) : IsHexDigit c ↔
    (48 ≤ c.toNat ∧ c.toNat ≤ 57) ∨ (97 ≤ c.toNat ∧ c.toNat ≤ 102) ∨
      (65 ≤ c.toNat ∧ c.toNat ≤ 70) :=
  Iff.rfl

theorem matchHexClass_iff (c : Char) : matchHexClass c = true ↔ IsHexDigit c := by
  rw [isHexDigit_iff]
  unfold matchHexClass canonicalize
  simp only [toUpper_toNat, Bool.or_eq_true, Bool.and_eq_true, decide_eq_true_eq]
  split <;> omega

theorem matchRepeat_nil_iff (p : Char → Bool) (n : Nat) (s : Str) :
    matchRepeat p n s = some [] ↔ s.length = n ∧ ∀ c ∈ s, p c = true := by
  induction n generalizing s with
  | zero =>
    cases s <;> simp [matchRepeat]
  | succ n ih =>
    cases s with
    | nil => simp [matchRepeat]
    | cons c cs =>
      by_cases h : p c = true
      · simp [matchRepeat, h, ih]
      · simp [matchRepeat, h]

/-- C8: `isValidHex s` holds exactly when `s` has seven characters, the first
is `#`, and each of the other six is a hexadecimal digit in either case. -/
theorem isValidHex_iff (s : Str) :
    isValidHex s = true ↔
      s.length = 7 ∧ s.head? = some '#' ∧ ∀ c ∈ s.tail, IsHexDigit c := by
  cases s with
  | nil => simp [isValidHex]
  | cons a rest =>
    by_cases ha : a = '#'
    · subst ha
      have key := matchRepeat_nil_iff matchHexClass 6 rest
      simp only [isValidHex, List.length_cons, List.head?_cons, List.tail_cons, true_and]
      constructor
      · intro h
        have h2 : matchRepeat matchHexClass 6 rest = some [] := by
          split at h <;> simp_all
        obtain ⟨h3, h4⟩ := key.mp h2
        exact ⟨by omega, fun c hc => (matchHexClass_iff c).mp (h4 c hc)⟩
      · rintro ⟨h3, h4⟩
        have h2 : matchRepeat matchHexClass 6 rest = some [] :=
          key.mpr ⟨by omega, fun c hc => (matchHexClass_iff c).mpr (h4 c hc)⟩
        rw [h2]
    · have : isValidHex (a :: rest) = false := by
        unfold isValidHex
        split
        · rename_i h; exact absurd (List.cons.inj h).1 ha
        · rfl
      simp [this, ha]

/-! ## Scale buckets -/

/-- C9: `mapScaleToPhrase` follows the inclusive thresholds 20, 40, 60, 80 on
every integer, and its value is exactly one of the five labels. -/
theorem mapScaleToPhrase_buckets (scale : Int) :
    (scale ≤ 20 → mapScaleToPhrase scale = "tiny".toList) ∧
    (20 < scale ∧ scale ≤ 40 → mapScaleToPhrase scale = "small".toList) ∧
    (40 < scale ∧ scale ≤ 60 → mapScaleToPhrase scale = "medium".toList) ∧
    (60 < scale ∧ scale ≤ 80 → mapScaleToPhrase scale = "large".toList) ∧
    (80 < scale → mapScaleToPhrase scale = "very large".toList) ∧
    (∃! l, l ∈ scaleLabels ∧ mapScaleToPhrase scale = l) := by
  unfold mapScaleToPhrase
  refine ⟨?_, ?_, ?_, ?_, ?_, ?_⟩
  · intro h; simp [h]
  · rintro ⟨h1, h2⟩; rw [if_neg (by omega), if_pos h2]
  · rintro ⟨h1, h2⟩; rw [if_neg (by omega), if_neg (by omega), if_pos h2]
  · rintro ⟨h1, h2⟩; rw [if_neg (by omega), if_neg (by omega), if_neg (by omega), if_pos h2]
  · intro h1; rw [if_neg (by omega), if_neg (by omega), if_neg (by omega), if_neg (by omega)]
  · refine ⟨_, ⟨?_, rfl⟩, fun l hl => hl.2.symm⟩
    split_ifs <;> simp [scaleLabels]

/-- Witness for C9: scale 75 is in the bucket `large`, scale 20 still in `tiny`,
scale 81 in `very large`. -/
theorem mapScaleToPhrase_buckets_witness :
    mapScaleToPhrase 75 = "large".toList ∧ mapScaleToPhrase 20 = "tiny".toList ∧
      mapScaleToPhrase 81 = "very large".toList :=
  ⟨(mapScaleToPhrase_buckets 75).2.2.2.1 ⟨by decide, by decide⟩,
   (mapScaleToPhrase_buckets 20).1 (by decide),
   (mapScaleToPhrase_buckets 81).2.2.2.2.1 (by decide)⟩

/-! ## The fragments of the compiler -/

theorem compileBgPhrase_nil : compileBgPhrase [] = [] := by decide

theorem isChromaBG_nil : isChromaBG (toLowerCase []) = false := by decide

theorem leadingParts_congr (st st2 : PFState) (h1 : st2.scene = st.scene)
    (h2 : st2.character = st.character) (h3 : st2.action = st.action) :
    leadingParts st2 = leadingParts st := by
  simp only [leadingParts, h1, h2, h3]

theorem compileParts_plain (st : PFState) (hb : st.background = [])
    (ht : st.pattern.type = []) : compileParts st = leadingParts st := by
  simp only [compileParts, hb, ht, compileBgPhrase_nil, isChromaBG_nil]
  simp

/-- C1: when the compiler classifies the background as chroma and a pattern
type is set, the compiled text is the text of the same selection with the
pattern type cleared, whatever the pattern colour and scale are. -/
theorem chroma_suppresses_pattern (st : PFState)
    (hbg : isChromaBG (toLowerCase st.background) = true) (_hty : st.pattern.type ≠ []) :
    compileFinalPrompt st =
      compileFinalPrompt { st with pattern := { st.pattern with type := [] } } := by
  have h : compileParts st =
      compileParts { st with pattern := { st.pattern with type := [] } } := by
    simp [compileParts, hbg, leadingParts]
  simp only [compileFinalPrompt, h]

/-- Witness for C1 (scenario B): background `Blue Chroma` with the stale
pattern type `dot` compiles to the chroma sentence alone. -/
theorem chroma_suppresses_pattern_witness :
    compileFinalPrompt
        { background := "Blue Chroma".toList, pattern := { type := "dot".toList } }
      = "against a seamless blue chroma field.".toList ∧
    compileFinalPrompt
        { background := "Blue Chroma".toList, pattern := { type := "dot".toList } }
      = compileFinalPrompt { background := "Blue Chroma".toList, pattern := { type := [] } } :=
  ⟨by decide,
   chroma_suppresses_pattern
     { background := "Blue Chroma".toList, pattern := { type := "dot".toList } }
     (by decide) (by decide)⟩

/-- C4: for a background that is not chroma and a non-empty pattern type, the
last fragment joined by the compiler is `against a <scale> <type> pattern`,
followed by ` in <hex>` exactly when the colour is non-empty and valid. -/
theorem pattern_fragment_last (st : PFState)
    (hbg : isChromaBG (toLowerCase st.background) = false) (hty : st.pattern.type ≠ []) :
    (compileParts st).getLast? = some
      ("against a ".toList ++ mapScaleToPhrase st.pattern.scale ++ " ".toList ++
        st.pattern.type ++ " pattern".toList ++
        (if st.pattern.hex ≠ [] ∧ isValidHex st.pattern.hex = true
          then " in ".toList ++ st.pattern.hex else [])) := by
  have h : compileParts st =
      (if compileBgPhrase st.background ≠ [] then
          leadingParts st ++ [compileBgPhrase st.background]
        else leadingParts st) ++ [patternPhrase st.pattern] := by
    unfold compileParts
    exact if_pos ⟨by rw [hbg]; rfl, hty⟩
  rw [h, List.getLast?_concat]
  unfold patternPhrase
  split_ifs <;> simp

/-- Witness for C4 (scenario C): `wooden deck` with a houndstooth pattern of
scale 75 and colour `#FF00AA`. -/
theorem pattern_fragment_last_witness :
    compileFinalPrompt
        { background := "wooden deck".toList,
          pattern := { type := "houndstooth".toList, hex := "#FF00AA".toList, scale := 75 } }
      = "wooden deck, against a large houndstooth pattern in #FF00AA.".toList ∧
    (compileParts
        { background := "wooden deck".toList,
          pattern := { type := "houndstooth".toList, hex := "#FF00AA".toList, scale := 75 } }
      ).getLast? = some
      ("against a ".toList ++ mapScaleToPhrase 75 ++ " ".toList ++
        "houndstooth".toList ++ " pattern".toList ++
        (if "#FF00AA".toList ≠ [] ∧ isValidHex "#FF00AA".toList = true
          then " in ".toList ++ "#FF00AA".toList else [])) :=
  ⟨by decide,
   pattern_fragment_last
     { background := "wooden deck".toList,
       pattern := { type := "houndstooth".toList, hex := "#FF00AA".toList, scale := 75 } }
     (by decide) (by decide)⟩

/-- C5, as the code has it: for a background the compiler classifies as
chroma, the three colour tests run in sequence and the last one that succeeds
wins, so the fragment is the white one whenever `white` occurs, otherwise the
green one when `green` occurs, otherwise the blue one when `blue` occurs,
otherwise none. -/
theorem chroma_phrase_last_match_wins (st : PFState)
    (hbg : isChromaBG (toLowerCase st.background) = true) :
    compileParts st = leadingParts st ++
      (if includes (toLowerCase st.background) "white".toList = true then
        ["against a seamless white screen background".toList]
      else if includes (toLowerCase st.background) "green".toList = true then
        ["against a seamless green chroma field".toList]
      else if includes (toLowerCase st.background) "blue".toList = true then
        ["against a seamless blue chroma field".toList]
      else []) := by
  have hbg2 := hbg
  unfold isChromaBG at hbg2
  simp only [compileParts, compileBgPhrase, hbg, hbg2]
  split_ifs <;> simp_all

/-- Witness for the amended C5: `Blue Chroma` yields the blue fragment. -/
theorem chroma_phrase_last_match_wins_witness :
    compileParts { background := "Blue Chroma".toList } =
      leadingParts { background := "Blue Chroma".toList } ++
      (if includes (toLowerCase "Blue Chroma".toList) "white".toList = true then
        ["against a seamless white screen background".toList]
      else if includes (toLowerCase "Blue Chroma".toList) "green".toList = true then
        ["against a seamless green chroma field".toList]
      else if includes (toLowerCase "Blue Chroma".toList) "blue".toList = true then
        ["against a seamless blue chroma field".toList]
      else []) :=
  chroma_phrase_last_match_wins { background := "Blue Chroma".toList } (by decide)

/-- Counterexample to C5 as stated: `blue green chroma` is chroma and contains
`blue`, yet the fragment emitted is the green one. -/
theorem chroma_phrase_blue_not_first :
    isChromaBG (toLowerCase "blue green chroma".toList) = true ∧
    includes (toLowerCase "blue green chroma".toList) "blue".toList = true ∧
    compileParts { background := "blue green chroma".toList } =
      ["against a seamless green chroma field".toList] ∧
    compileFinalPrompt { background := "blue green chroma".toList } =
      "against a seamless green chroma field.".toList := by decide

/-- C6: a background containing `chroma` but none of `blue`, `green`, `white`
is dropped together with the pattern: the compiled text is that of the same
selection with empty background and empty pattern type. -/
theorem colourless_chroma_dropped (st : PFState)
    (hc : includes (toLowerCase st.background) "chroma".toList = true)
    (hb : includes (toLowerCase st.background) "blue".toList = false)
    (hg : includes (toLowerCase st.background) "green".toList = false)
    (hw : includes (toLowerCase st.background) "white".toList = false) :
    compileFinalPrompt st =
      compileFinalPrompt
        { st with background := [], pattern := { st.pattern with type := [] } } := by
  have hp : compileBgPhrase st.background = [] := by
    simp only [compileBgPhrase, hc, hb, hg, hw]
    simp
  have hch : isChromaBG (toLowerCase st.background) = true := by
    simp only [isChromaBG, hc]
    simp
  have h1 : compileParts st = leadingParts st := by
    simp only [compileParts, hp, hch]
    simp
  have h2 : compileParts
      { st with background := [], pattern := { st.pattern with type := [] } } =
        leadingParts st := by
    rw [compileParts_plain _ rfl rfl]
    exact leadingParts_congr _ _ rfl rfl rfl
  simp only [compileFinalPrompt, h1, h2]

/-- Witness for C6: `red chroma` with every other field empty compiles to the
empty string. -/
theorem colourless_chroma_dropped_witness :
    compileFinalPrompt { background := "red chroma".toList } = [] ∧
    compileFinalPrompt { background := "red chroma".toList } =
      compileFinalPrompt { background := [], pattern := { type := [] } } :=
  ⟨by decide,
   colourless_chroma_dropped { background := "red chroma".toList }
     (by decide) (by decide) (by decide) (by decide)⟩

/-! ## The punctuation clean-up -/

/-! ### Replacing white space before a comma -/

theorem replaceAllAux_skip (m : Matcher) (r : Str) :
    ∀ (s : Str) (k : Nat), replaceAllAux m r k s = replaceAllAux m r 0 (s.drop k) := by
  intro s
  induction s with
  | nil => intro k; cases k <;> simp [replaceAllAux]
  | cons c cs ih =>
    intro k
    cases k with
    | zero => simp
    | succ k => simp only [replaceAllAux, List.drop_succ_cons]; exact ih k

theorem replaceAll_nil (m : Matcher) (r : Str) : replaceAll m r [] = [] := by
  simp [replaceAll, replaceAllAux]

theorem replaceAll_cons_some (m : Matcher) (r : Str) (c : Char) (cs : Str) (n : Nat)
    (h : m (c :: cs) = some (n + 1)) :
    replaceAll m r (c :: cs) = r ++ replaceAll m r (cs.drop n) := by
  simp only [replaceAll, replaceAllAux, h]
  rw [replaceAllAux_skip]

theorem replaceAll_cons_none (m : Matcher) (r : Str) (c : Char) (cs : Str)
    (h : m (c :: cs) = none) :
    replaceAll m r (c :: cs) = c :: replaceAll m r cs := by
  simp only [replaceAll, replaceAllAux, h]

theorem drop_length_takeWhile (p : Char → Bool) (l : Str) :
    l.drop (l.takeWhile p).length = l.dropWhile p := by
  have h : (l.takeWhile p ++ l.dropWhile p).drop (l.takeWhile p).length = l.dropWhile p :=
    List.drop_left _ _
  rwa [List.takeWhile_append_dropWhile] at h

theorem matchWsComma_eq (s : Str) :
    matchWsComma s =
      if 0 < (s.takeWhile isWhiteSpace).length ∧
          (s.dropWhile isWhiteSpace).head? = some ',' then
        some ((s.takeWhile isWhiteSpace).length + 1)
      else none := by
  simp only [matchWsComma, drop_length_takeWhile]

theorem isWhiteSpace_comma : isWhiteSpace ',' = false := by decide

theorem isWhiteSpace_period : isWhiteSpace '.' = false := by decide

/-- When the pattern matches at `c :: cs`, the scan resumes right after the comma. -/
theorem matchWsComma_some (c : Char) (cs : Str) (k : Nat)
    (h : matchWsComma (c :: cs) = some k) :
    ∃ n, k = n + 1 ∧ ((c :: cs).dropWhile isWhiteSpace).head? = some ',' ∧
      (cs.drop n).length < (c :: cs).length := by
  rw [matchWsComma_eq] at h
  split at h
  · rename_i hc
    refine ⟨((c :: cs).takeWhile isWhiteSpace).length, ?_, hc.2, ?_⟩
    · exact (Option.some.inj h).symm
    · simp only [List.length_drop, List.length_cons]; omega
  · exact absurd h (by simp)

theorem matchWsComma_none_of_not_ws (c : Char) (cs : Str) (h : isWhiteSpace c = false) :
    matchWsComma (c :: cs) = none := by
  rw [matchWsComma_eq, List.takeWhile_cons_of_neg (by simp [h])]
  simp

theorem matchWsComma_ws_none (c : Char) (cs : Str) (hws : isWhiteSpace c = true)
    (h : matchWsComma (c :: cs) = none) :
    (cs.dropWhile isWhiteSpace).head? ≠ some ',' := by
  rw [matchWsComma_eq, List.takeWhile_cons_of_pos hws, List.dropWhile_cons_of_pos hws] at h
  intro hh
  simp [hh] at h

theorem replaceWsComma_inv : ∀ (n : Nat) (s : Str), s.length ≤ n →
    NoWsComma (replaceAll matchWsComma ",".toList s) ∧
    ((replaceAll matchWsComma ",".toList s).head? = some ',' →
      (s.dropWhile isWhiteSpace).head? = some ',') := by
  intro n
  induction n with
  | zero =>
    intro s hs
    have : s = [] := List.eq_nil_of_length_eq_zero (by omega)
    subst this
    simp [replaceAll_nil, NoWsComma]
  | succ n ih =>
    intro s hs
    cases s with
    | nil => simp [replaceAll_nil, NoWsComma]
    | cons c cs =>
      cases hm : matchWsComma (c :: cs) with
      | some k =>
        obtain ⟨j, hk, hhead, hlen⟩ := matchWsComma_some c cs k hm
        subst hk
        rw [replaceAll_cons_some _ _ _ _ _ hm]
        have ih1 := ih (cs.drop j) (by simp only [List.length_cons] at hlen hs; omega)
        refine ⟨?_, fun _ => hhead⟩
        show List.Chain' _ (',' :: _)
        rw [List.chain'_cons']
        exact ⟨fun y _ hy => by simp [isWhiteSpace_comma] at hy, ih1.1⟩
      | none =>
        rw [replaceAll_cons_none _ _ _ _ hm]
        have ih1 := ih cs (by simp only [List.length_cons] at hs; omega)
        refine ⟨?_, ?_⟩
        · show List.Chain' _ (c :: _)
          rw [List.chain'_cons']
          refine ⟨?_, ih1.1⟩
          intro y hy hbad
          have hy2 : (replaceAll matchWsComma ",".toList cs).head? = some ',' := by
            rw [← hbad.2]; exact hy
          exact matchWsComma_ws_none c cs hbad.1 hm (ih1.2 hy2)
        · intro hh
          have hc : c = ',' := by simpa using hh
          subst hc
          rw [List.dropWhile_cons_of_neg (by simp [isWhiteSpace_comma])]
          rfl

theorem noWsComma_after_ws (x : Char) (xs : Str) (hws : isWhiteSpace x = true)
    (h : NoWsComma (x :: xs)) : (xs.dropWhile isWhiteSpace).head? ≠ some ',' := by
  induction xs generalizing x with
  | nil => simp
  | cons y ys ih =>
    have h2 := (List.chain'_cons.mp h)
    by_cases hy : isWhiteSpace y = true
    · rw [List.dropWhile_cons_of_pos hy]
      exact ih y hy h2.2
    · rw [List.dropWhile_cons_of_neg hy]
      intro hh
      have : y = ',' := by simpa using hh
      exact h2.1 ⟨hws, this⟩

theorem matchWsComma_none_of_clean (s : Str) (h : NoWsComma s) : matchWsComma s = none := by
  cases s with
  | nil => rfl
  | cons x xs =>
    by_cases hx : isWhiteSpace x = true
    · rw [matchWsComma_eq, List.dropWhile_cons_of_pos hx, if_neg]
      intro hc
      exact noWsComma_after_ws x xs hx h hc.2
    · exact matchWsComma_none_of_not_ws x xs (by simpa using hx)

theorem replaceWsComma_fixed (r : Str) (s : Str) (h : NoWsComma s) :
    replaceAll matchWsComma r s = s := by
  induction s with
  | nil => exact replaceAll_nil _ _
  | cons x xs ih =>
    rw [replaceAll_cons_none _ _ _ _ (matchWsComma_none_of_clean _ h)]
    rw [ih (List.Chain'.tail h)]

/-! ### Collapsing runs of one character -/

theorem matchRun_eq (c : Char) (s : Str) :
    matchRun c s =
      if 2 ≤ (s.takeWhile (fun x => x == c)).length then
        some (s.takeWhile (fun x => x == c)).length
      else none := rfl

theorem takeWhile_eq_length_two (c x : Char) (xs : Str)
    (h : 2 ≤ ((x :: xs).takeWhile (fun y => y == c)).length) :
    x = c ∧ xs.head? = some c := by
  by_cases hx : x = c
  · subst hx
    refine ⟨rfl, ?_⟩
    cases xs with
    | nil => simp [List.takeWhile_cons] at h
    | cons y ys =>
      by_cases hy : y = x
      · simp [hy]
      · simp [List.takeWhile_cons, hy] at h
  · simp [List.takeWhile_cons, hx] at h

theorem matchRun_some (c x : Char) (xs : Str) (k : Nat)
    (h : matchRun c (x :: xs) = some k) :
    ∃ n, k = n + 1 ∧ x = c ∧ xs.head? = some c ∧
      xs.drop n = (x :: xs).dropWhile (fun y => y == c) ∧
      (xs.drop n).length < (x :: xs).length := by
  rw [matchRun_eq] at h
  split at h
  · rename_i h2
    have hk : ((x :: xs).takeWhile (fun y => y == c)).length = k := Option.some.inj h
    obtain ⟨hx, hxs⟩ := takeWhile_eq_length_two c x xs h2
    refine ⟨k - 1, by omega, hx, hxs, ?_, ?_⟩
    · have hd := drop_length_takeWhile (fun y => y == c) (x :: xs)
      rw [hk] at hd
      rw [← hd]
      have : k = (k - 1) + 1 := by omega
      conv_rhs => rw [this, List.drop_succ_cons]
    · simp only [List.length_drop, List.length_cons]; omega
  · exact absurd h (by simp)

theorem matchRun_none (c x : Char) (xs : Str) (h : matchRun c (x :: xs) = none) :
    ¬ (x = c ∧ xs.head? = some c) := by
  rintro ⟨hx, hxs⟩
  subst hx
  cases xs with
  | nil => simp at hxs
  | cons y ys =>
    have hy : y = x := by simpa using hxs
    subst hy
    simp [matchRun_eq] at h

theorem matchRun_none_of_clean (c : Char) (s : Str) (h : NoDouble c s) :
    matchRun c s = none := by
  cases s with
  | nil => rfl
  | cons x xs =>
    rw [matchRun_eq, if_neg]
    intro h2
    obtain ⟨hx, hxs⟩ := takeWhile_eq_length_two c x xs h2
    cases xs with
    | nil => simp at hxs
    | cons y ys =>
      have hy : y = c := by simpa using hxs
      exact (List.chain'_cons.mp h).1 ⟨hx, hy⟩

theorem replaceRun_fixed (c : Char) (r : Str) (s : Str) (h : NoDouble c s) :
    replaceAll (matchRun c) r s = s := by
  induction s with
  | nil => exact replaceAll_nil _ _
  | cons x xs ih =>
    rw [replaceAll_cons_none _ _ _ _ (matchRun_none_of_clean _ _ h)]
    rw [ih (List.Chain'.tail h)]

/-- Collapsing the runs of `c` keeps the first character and every relation
between neighbours. -/
theorem replaceRun_inv (c : Char) (R : Char → Char → Prop) : ∀ (n : Nat) (s : Str),
    s.length ≤ n →
    (replaceAll (matchRun c) [c] s).head? = s.head? ∧
    NoDouble c (replaceAll (matchRun c) [c] s) ∧
    (List.Chain' R s → List.Chain' R (replaceAll (matchRun c) [c] s)) := by
  intro n
  induction n with
  | zero =>
    intro s hs
    have : s = [] := List.eq_nil_of_length_eq_zero (by omega)
    subst this
    simp [replaceAll_nil, NoDouble]
  | succ n ih =>
    intro s hs
    cases s with
    | nil => simp [replaceAll_nil, NoDouble]
    | cons x xs =>
      cases hm : matchRun c (x :: xs) with
      | some k =>
        obtain ⟨j, hk, hx, hxs, hdrop, hlen⟩ := matchRun_some c x xs k hm
        subst hk
        subst hx
        rw [replaceAll_cons_some _ _ _ _ _ hm, List.singleton_append]
        obtain ⟨ih1, ih2, ih3⟩ :=
          ih (xs.drop j) (by simp only [List.length_cons] at hlen hs; omega)
        have hnot : ∀ y ∈ (xs.drop j).head?, y ≠ x := by
          intro y hy hyx
          have := List.head?_dropWhile_not (fun y => y == x) (x :: xs)
          rw [← hdrop] at this
          rw [Option.mem_def] at hy
          rw [hy] at this
          simp [hyx] at this
        refine ⟨rfl, ?_, ?_⟩
        · unfold NoDouble
          rw [List.chain'_cons']
          refine ⟨?_, ih2⟩
          intro y hy hbad
          rw [ih1] at hy
          exact hnot y hy hbad.2
        · intro hR
          rw [List.chain'_cons']
          have hsplit := List.takeWhile_append_dropWhile (fun y => y == x) (x :: xs)
          rw [← hsplit, List.chain'_append] at hR
          rw [← hdrop] at hR
          refine ⟨?_, ih3 hR.2.1⟩
          intro y hy
          rw [ih1] at hy
          refine hR.2.2 x ?_ y hy
          have hne : (x :: xs).takeWhile (fun y => y == x) ≠ [] := by
            rw [List.takeWhile_cons_of_pos (by simp)]
            simp
          rw [Option.mem_def, List.getLast?_eq_getLast _ hne]
          have hmem := List.getLast_mem hne
          have := List.mem_takeWhile_imp hmem
          simp only [beq_iff_eq] at this
          rw [this]
      | none =>
        rw [replaceAll_cons_none _ _ _ _ hm]
        obtain ⟨ih1, ih2, ih3⟩ := ih xs (by simp only [List.length_cons] at hs; omega)
        refine ⟨rfl, ?_, ?_⟩
        · unfold NoDouble
          rw [List.chain'_cons']
          refine ⟨?_, ih2⟩
          intro y hy hbad
          rw [ih1] at hy
          rw [Option.mem_def] at hy
          exact matchRun_none c x xs hm ⟨hbad.1, by rw [hy, hbad.2]⟩
        · intro hR
          rw [List.chain'_cons'] at hR ⊢
          refine ⟨?_, ih3 hR.2⟩
          intro y hy
          rw [ih1] at hy
          exact hR.1 y hy

/-! ### Trimming -/

theorem trim_eq (s : Str) :
    trim s = (s.dropWhile isWhiteSpace).rdropWhile isWhiteSpace := rfl

theorem trim_sub (s : Str) : trim s <:+: s := by
  rw [trim_eq]
  exact (List.rdropWhile_prefix _ _).isInfix.trans (List.dropWhile_suffix _).isInfix

/-- Trimming keeps every relation between neighbours. -/
theorem chain_trim {R : Char → Char → Prop} (s : Str) (h : List.Chain' R s) :
    List.Chain' R (trim s) :=
  List.Chain'.infix h (trim_sub s)

theorem trim_head (s : Str) : ∀ c ∈ (trim s).head?, isWhiteSpace c = false := by
  intro c hc
  rw [trim_eq] at hc
  have hpre : (s.dropWhile isWhiteSpace).rdropWhile isWhiteSpace <+: s.dropWhile isWhiteSpace :=
    List.rdropWhile_prefix _ _
  obtain ⟨t, ht⟩ := hpre
  have hnot := List.head?_dropWhile_not isWhiteSpace s
  rw [← ht] at hnot
  rw [Option.mem_def] at hc
  cases h : (s.dropWhile isWhiteSpace).rdropWhile isWhiteSpace with
  | nil => rw [h] at hc; simp at hc
  | cons a as =>
    rw [h] at hc hnot
    simp only [List.head?_cons, Option.some.injEq] at hc
    subst hc
    simpa using hnot

theorem trim_fixed (s : Str) (hh : ∀ c ∈ s.head?, isWhiteSpace c = false)
    (hl : ∀ c ∈ s.getLast?, isWhiteSpace c = false) : trim s = s := by
  rw [trim_eq]
  have h1 : s.dropWhile isWhiteSpace = s := by
    cases s with
    | nil => rfl
    | cons a as =>
      have := hh a (by simp)
      rw [List.dropWhile_cons_of_neg (by simp [this])]
  rw [h1, List.rdropWhile_eq_self_iff]
  intro hne
  have := hl (s.getLast hne) (by rw [Option.mem_def, List.getLast?_eq_getLast _ hne])
  simp [this]

theorem trim_last (s : Str) : ∀ c ∈ (trim s).getLast?, isWhiteSpace c = false := by
  intro c hc
  rw [trim_eq] at hc
  rw [Option.mem_def] at hc
  by_cases hne : (s.dropWhile isWhiteSpace).rdropWhile isWhiteSpace = []
  · rw [hne] at hc; simp at hc
  · rw [List.getLast?_eq_getLast _ hne] at hc
    have := List.rdropWhile_last_not isWhiteSpace _ hne
    rw [Option.some.inj hc] at this
    simpa using this

/-- A string without the three anomalies and without outer white space is
left as it is by the clean-up. -/
theorem cleanup_fixed (t : Str) (hw : NoWsComma t) (hc : NoDouble ',' t)
    (hp : NoDouble '.' t) (hh : ∀ c ∈ t.head?, isWhiteSpace c = false)
    (hl : ∀ c ∈ t.getLast?, isWhiteSpace c = false) : cleanup t = t := by
  unfold cleanup
  simp only
  rw [replaceWsComma_fixed _ _ hw, replaceRun_fixed _ _ _ hc, replaceRun_fixed _ _ _ hp]
  exact trim_fixed _ hh hl

/-- The result of the clean-up has none of the three anomalies. -/
theorem cleanup_clean (s : Str) :
    NoWsComma (cleanup s) ∧ NoDouble ',' (cleanup s) ∧ NoDouble '.' (cleanup s) := by
  have h1 := (replaceWsComma_inv _ s le_rfl).1
  have h2 := replaceRun_inv ',' (fun a b => ¬ (isWhiteSpace a = true ∧ b = ','))
    _ (replaceAll matchWsComma ",".toList s) le_rfl
  have h3 := replaceRun_inv '.' (fun a b => ¬ (isWhiteSpace a = true ∧ b = ','))
    _ (replaceAll (matchRun ',') ",".toList (replaceAll matchWsComma ",".toList s)) le_rfl
  have h4 := replaceRun_inv '.' (fun a b => ¬ (a = ',' ∧ b = ','))
    _ (replaceAll (matchRun ',') ",".toList (replaceAll matchWsComma ",".toList s)) le_rfl
  exact ⟨chain_trim _ (h3.2.2 (h2.2.2 h1)), chain_trim _ (h4.2.2 h2.2.1),
    chain_trim _ h3.2.1⟩

/-- C7: the punctuation clean-up of `compileFinalPrompt` is idempotent. -/
theorem cleanup_idempotent (s : Str) : cleanup (cleanup s) = cleanup s := by
  obtain ⟨hw, hc, hp⟩ := cleanup_clean s
  exact cleanup_fixed _ hw hc hp (trim_head _) (trim_last _)

/-! ## Sentences of plain fragments -/

theorem chain'_of_forall_snd {R : Char → Char → Prop} (l : Str)
    (h : ∀ b ∈ l, ∀ a, R a b) : List.Chain' R l := by
  induction l with
  | nil => exact List.chain'_nil
  | cons x xs ih =>
    rw [List.chain'_cons']
    refine ⟨?_, ih (fun b hb => h b (List.mem_cons_of_mem _ hb))⟩
    intro y hy
    exact h y (List.mem_cons_of_mem _ (List.mem_of_mem_head? hy)) x

theorem plain_tidy (f : Str) (hf : Plain f) : Tidy f := by
  refine ⟨?_, ?_, ?_⟩
  · exact chain'_of_forall_snd f (fun b hb a hbad => hf.1 (hbad.2 ▸ hb))
  · exact chain'_of_forall_snd f (fun b hb a hbad => hf.1 (hbad.2 ▸ hb))
  · exact chain'_of_forall_snd f (fun b hb a hbad => hf.2.1 (hbad.2 ▸ hb))

theorem plain_last (f : Str) (hf : Plain f) :
    ∀ a ∈ f.getLast?, isWhiteSpace a = false ∧ a ≠ ',' ∧ a ≠ '.' := by
  intro a ha
  have hmem : a ∈ f := List.mem_of_mem_getLast? ha
  exact ⟨hf.2.2.2 a ha, fun h => hf.1 (h ▸ hmem), fun h => hf.2.1 (h ▸ hmem)⟩

theorem plain_append_tidy (f t : Str) (hf : Plain f) (ht : Tidy t) : Tidy (f ++ t) := by
  obtain ⟨f1, f2, f3⟩ := plain_tidy f hf
  refine ⟨List.Chain'.append f1 ht.1 ?_, List.Chain'.append f2 ht.2.1 ?_,
    List.Chain'.append f3 ht.2.2 ?_⟩
  · intro a ha b _ hbad
    have := (plain_last f hf a ha).1
    rw [this] at hbad
    exact absurd hbad.1 (by simp)
  · intro a ha b _ hbad
    exact (plain_last f hf a ha).2.1 hbad.1
  · intro a ha b _ hbad
    exact (plain_last f hf a ha).2.2 hbad.1

theorem separator_tidy (u : Str) (hu : Tidy u) (hh : ∀ c ∈ u.head?, c ≠ ',') :
    Tidy (", ".toList ++ u) := by
  show Tidy (',' :: ' ' :: u)
  refine ⟨?_, ?_, ?_⟩
  · show List.Chain' _ _
    rw [List.chain'_cons, List.chain'_cons']
    exact ⟨by decide, fun y hy hbad => hh y hy hbad.2, hu.1⟩
  · show List.Chain' _ _
    rw [List.chain'_cons, List.chain'_cons']
    exact ⟨by decide, fun y _ hbad => absurd hbad.1 (by decide), hu.2.1⟩
  · show List.Chain' _ _
    rw [List.chain'_cons, List.chain'_cons']
    exact ⟨by decide, fun y _ hbad => absurd hbad.1 (by decide), hu.2.2⟩

theorem period_tidy : Tidy ".".toList := by
  refine ⟨?_, ?_, ?_⟩ <;> exact List.chain'_singleton _

theorem join_cons_cons (sep f g : Str) (r : List Str) :
    join sep (f :: g :: r) = f ++ (sep ++ join sep (g :: r)) := by
  simp [join, List.intercalate, List.intersperse]

theorem join_singleton (sep f : Str) : join sep [f] = f := by
  simp [join, List.intercalate, List.intersperse]

/-- The sentence built from plain non-empty fragments is tidy, starts with the
first character of the first fragment and ends with the period. -/
theorem sentence_tidy (fs : List Str) (hne : fs ≠ [])
    (hfs : ∀ f ∈ fs, f ≠ [] ∧ Plain f) :
    Tidy (join ", ".toList fs ++ ".".toList) ∧
    (∀ c ∈ (join ", ".toList fs ++ ".".toList).head?, isWhiteSpace c = false ∧ c ≠ ',') ∧
    (join ", ".toList fs ++ ".".toList).getLast? = some '.' ∧
    join ", ".toList fs ≠ [] := by
  induction fs with
  | nil => exact absurd rfl hne
  | cons f rest ih =>
    obtain ⟨hfne, hf⟩ := hfs f (List.mem_cons_self _ _)
    have hhead : ∀ (t : Str), ∀ c ∈ (f ++ t).head?, isWhiteSpace c = false ∧ c ≠ ',' := by
      intro t c hc
      cases f with
      | nil => exact absurd rfl hfne
      | cons a as =>
        have hca : a = c := by simpa using hc
        subst hca
        exact ⟨hf.2.2.1 a (by simp), fun h => hf.1 (h ▸ List.mem_cons_self _ _)⟩
    cases rest with
    | nil =>
      rw [join_singleton]
      refine ⟨plain_append_tidy f _ hf period_tidy, hhead _, ?_, hfne⟩
      simp
    | cons g r =>
      obtain ⟨ih1, ih2, ih3, _⟩ :=
        ih (by simp) (fun x hx => hfs x (List.mem_cons_of_mem _ hx))
      rw [join_cons_cons]
      refine ⟨?_, ?_, ?_, by simp [hfne]⟩
      · rw [List.append_assoc, List.append_assoc]
        exact plain_append_tidy f _ hf (separator_tidy _ ih1 (fun c hc => (ih2 c hc).2))
      · rw [List.append_assoc]
        exact hhead _
      · rw [List.append_assoc, List.append_assoc, List.getLast?_append, List.getLast?_append, ih3]
        simp

theorem cleanup_period : cleanup ".".toList = ".".toList := by decide

theorem leadingParts_eq_filter (st : PFState) :
    leadingParts st = [st.scene, st.character, st.action].filter (fun f => f ≠ []) := by
  unfold leadingParts
  by_cases h1 : st.scene = [] <;> by_cases h2 : st.character = [] <;>
    by_cases h3 : st.action = [] <;> simp [h1, h2, h3]

/-- C3: with empty background and empty pattern type, and scene, character
and action free of commas, periods and outer white space, the compiled text is
the non-empty ones among the three, in that order and verbatim, joined by
`, ` and closed by one period; it is the empty string when all three are
empty. -/
theorem compile_plain_fragments (st : PFState) (hbg : st.background = [])
    (hty : st.pattern.type = []) (hs : Plain st.scene) (hc : Plain st.character)
    (ha : Plain st.action) :
    compileFinalPrompt st =
      if [st.scene, st.character, st.action].filter (fun f => f ≠ []) = [] then []
      else
        join ", ".toList ([st.scene, st.character, st.action].filter (fun f => f ≠ []))
          ++ ".".toList := by
  unfold compileFinalPrompt
  rw [compileParts_plain st hbg hty, leadingParts_eq_filter]
  split
  · rename_i hnil
    rw [hnil]
    decide
  · rename_i hne
    have hfs : ∀ f ∈ [st.scene, st.character, st.action].filter (fun f => f ≠ []),
        f ≠ [] ∧ Plain f := by
      intro f hf
      rw [List.mem_filter] at hf
      refine ⟨by simpa using hf.2, ?_⟩
      have := hf.1
      simp only [List.mem_cons, List.mem_singleton, List.not_mem_nil, or_false] at this
      rcases this with h | h | h <;> rw [h] <;> assumption
    obtain ⟨ht, hh, hl, hjoin⟩ := sentence_tidy _ hne hfs
    have hfix := cleanup_fixed _ ht.1 ht.2.1 ht.2.2 (fun c hc => (hh c hc).1)
      (fun c hc => by
        rw [hl] at hc
        have : c = '.' := by simpa using hc.symm
        rw [this]; decide)
    simp only [hfix]
    rw [if_neg]
    intro hbad
    have hlen := congrArg List.length hbad
    have hpos := List.length_pos.mpr hjoin
    simp only [List.length_append] at hlen
    have h1 : ".".toList.length = 1 := rfl
    omega

/-- Witness for C3 (scenario A), together with the all-empty selection. -/
theorem compile_plain_fragments_witness :
    compileFinalPrompt
        { scene := "on a beach".toList, character := "a surfer".toList,
          action := "running".toList } =
      (if ["on a beach".toList, "a surfer".toList, "running".toList].filter
            (fun f => f ≠ []) = [] then []
        else
          join ", ".toList
              (["on a beach".toList, "a surfer".toList, "running".toList].filter
                (fun f => f ≠ []))
            ++ ".".toList) ∧
    compileFinalPrompt
        { scene := "on a beach".toList, character := "a surfer".toList,
          action := "running".toList } = "on a beach, a surfer, running.".toList ∧
    compileFinalPrompt {} = [] :=
  ⟨compile_plain_fragments
      { scene := "on a beach".toList, character := "a surfer".toList,
        action := "running".toList }
      rfl rfl (by unfold Plain; decide) (by unfold Plain; decide) (by unfold Plain; decide),
    by decide, by decide⟩

/-! ## Preview and compiler -/

theorem cleanup_nil : cleanup [] = [] := by decide

theorem editorParts_eq_compileParts (st : PFState)
    (hphrase : includes (toLowerCase st.background) "chroma".toList =
      isChromaBG (toLowerCase st.background))
    (hgate : editorBgIsChroma (toLowerCase st.background) =
      isChromaBG (toLowerCase st.background)) :
    editorParts st = compileParts st := by
  have hb : editorBgPhrase st.background = compileBgPhrase st.background := by
    have h := hphrase
    unfold isChromaBG at h
    unfold editorBgPhrase compileBgPhrase
    simp only [← h]
  unfold editorParts compileParts
  simp only [hb, hgate]

theorem editorText_ne_period (st : PFState) : editorText st ≠ ".".toList := by
  unfold editorText
  simp only
  split
  · decide
  · assumption

/-- C2, as the code has it: with the editor locked and a background on which
the two chroma tests of `refreshEditor` answer as the test of the compiler,
the compiled text is the clean-up of the preview text (a lone period becoming
the empty string), so the two are identical whenever the clean-up leaves the
preview unchanged. -/
theorem preview_cleanup_is_compile (st : PFState) (editPrompt : Str)
    (hlock : st.editorLocked = true)
    (hphrase : includes (toLowerCase st.background) "chroma".toList =
      isChromaBG (toLowerCase st.background))
    (hgate : editorBgIsChroma (toLowerCase st.background) =
      isChromaBG (toLowerCase st.background)) :
    compileFinalPrompt st =
      (if cleanup (refreshEditor st editPrompt) = ".".toList then []
        else cleanup (refreshEditor st editPrompt)) ∧
    (cleanup (refreshEditor st editPrompt) = refreshEditor st editPrompt →
      refreshEditor st editPrompt = compileFinalPrompt st) := by
  have hr : refreshEditor st editPrompt = editorText st := by
    simp [refreshEditor, hlock]
  have hA : compileFinalPrompt st =
      (if cleanup (editorText st) = ".".toList then [] else cleanup (editorText st)) := by
    unfold compileFinalPrompt editorText
    rw [editorParts_eq_compileParts st hphrase hgate]
    simp only
    by_cases hraw : join ", ".toList (compileParts st) ++ ".".toList = ".".toList
    · rw [hraw, if_pos rfl, cleanup_period, cleanup_nil]
      decide
    · rw [if_neg hraw]
  rw [hr]
  refine ⟨hA, fun hfix => ?_⟩
  rw [hA, hfix, if_neg (editorText_ne_period st)]

/-- Witness for the amended C2: `wooden deck` with a houndstooth pattern. -/
theorem preview_cleanup_is_compile_witness :
    compileFinalPrompt
        { background := "wooden deck".toList,
          pattern := { type := "houndstooth".toList, hex := "#FF00AA".toList, scale := 75 } } =
      (if cleanup (refreshEditor
        { background := "wooden deck".toList,
          pattern := { type := "houndstooth".toList, hex := "#FF00AA".toList, scale := 75 } } []) = ".".toList then []
        else cleanup (refreshEditor
        { background := "wooden deck".toList,
          pattern := { type := "houndstooth".toList, hex := "#FF00AA".toList, scale := 75 } } [])) ∧
    refreshEditor
        { background := "wooden deck".toList,
          pattern := { type := "houndstooth".toList, hex := "#FF00AA".toList, scale := 75 } } [] =
      "wooden deck, against a large houndstooth pattern in #FF00AA.".toList :=
  ⟨(preview_cleanup_is_compile
        { background := "wooden deck".toList,
          pattern := { type := "houndstooth".toList, hex := "#FF00AA".toList, scale := 75 } } []
        (by decide) (by decide) (by decide)).1, by decide⟩

/-- Counterexample to C2 as stated: a scene that ends with a period.  The
editor stays locked, the preview keeps both periods, the compiler collapses
them. -/
theorem preview_differs_on_period :
    ({ scene := "Stop.".toList } : PFState).editorLocked = true ∧
    refreshEditor { scene := "Stop.".toList } [] = "Stop..".toList ∧
    compileFinalPrompt { scene := "Stop.".toList } = "Stop.".toList ∧
    refreshEditor { scene := "Stop.".toList } [] ≠ compileFinalPrompt { scene := "Stop.".toList } := by
  decide

/-- The two chroma tests of `refreshEditor` also part from the compiler: on
`White Screen` the preview keeps the background verbatim, on `red chroma` it
still emits the pattern. -/
theorem preview_differs_on_chroma :
    refreshEditor { background := "White Screen".toList } [] = "White Screen.".toList ∧
    compileFinalPrompt { background := "White Screen".toList } =
      "against a seamless white screen background.".toList ∧
    refreshEditor { background := "red chroma".toList, pattern := { type := "dot".toList } } [] =
      "against a small dot pattern.".toList ∧
    compileFinalPrompt { background := "red chroma".toList, pattern := { type := "dot".toList } } = [] := by
  decide

/-! ## Recent colours -/

/-- On a history of at most five entries the single `pop` of
`storeRecentColor` is a truncation to five: the result is the first five
entries of `hex` prepended to the history without its occurrences of `hex`
when `hex` is valid, and the history unchanged otherwise. -/
theorem storeRecentColor_take (recent : List Str) (hex : Str) (hlen : recent.length ≤ 5) :
    storeRecentColor recent hex =
      if isValidHex hex = true then (hex :: recent.filter (fun c => c ≠ hex)).take 5
      else recent := by
  unfold storeRecentColor
  by_cases hv : isValidHex hex = true
  · have hf : (recent.filter (fun c => c ≠ hex)).length ≤ 5 :=
      le_trans (List.length_filter_le _ _) hlen
    simp only [hv, Bool.not_true, if_true, Bool.false_eq_true, if_false]
    split
    · rename_i h
      have h6 : (hex :: recent.filter (fun c => c ≠ hex)).length = 6 := by
        simp only [List.length_cons] at h ⊢
        omega
      rw [List.dropLast_eq_take, h6]
    · rename_i h
      rw [List.take_of_length_le (by omega)]
  · simp [hv]

/-- Re-adding the third of three colours. -/
theorem storeRecentColor_take_witness :
    storeRecentColor ["#000001".toList, "#000002".toList, "#000003".toList] "#000003".toList =
      if isValidHex "#000003".toList = true then
        ("#000003".toList ::
          ["#000001".toList, "#000002".toList, "#000003".toList].filter
            (fun c => c ≠ "#000003".toList)).take 5
      else ["#000001".toList, "#000002".toList, "#000003".toList] :=
  storeRecentColor_take _ _ (by decide)

/-- The bound matters for the function taken alone: on a list of six colours,
which the program never holds, a new valid colour gives six entries, because a
single `pop` follows the `unshift`. -/
theorem storeRecentColor_six :
    isValidHex "#000000".toList = true ∧
    storeRecentColor sixColors "#000000".toList =
      ["#000000".toList, "#000001".toList, "#000002".toList, "#000003".toList,
       "#000004".toList, "#000005".toList] ∧
    storeRecentColor sixColors "#000000".toList ≠
      ("#000000".toList :: sixColors.filter (fun c => c ≠ "#000000".toList)).take 5 := by
  decide

/-! ## The bound of the recent colours -/

theorem storeRecentColor_valid (recent : List Str) (hex : Str) (hv : isValidHex hex = true) :
    storeRecentColor recent hex =
      if (hex :: recent.filter (fun c => c ≠ hex)).length > 5 then
        (hex :: recent.filter (fun c => c ≠ hex)).dropLast
      else hex :: recent.filter (fun c => c ≠ hex) := by
  simp [storeRecentColor, hv]

theorem storeRecentColor_invalid (recent : List Str) (hex : Str) (hv : isValidHex hex = false) :
    storeRecentColor recent hex = recent := by
  simp [storeRecentColor, hv]

theorem nodup_cons_filter (recent : List Str) (hex : Str) (h : recent.Nodup) :
    (hex :: recent.filter (fun c => c ≠ hex)).Nodup := by
  rw [List.nodup_cons]
  refine ⟨?_, h.filter _⟩
  intro hmem
  have := (List.mem_filter.mp hmem).2
  simp at this

theorem storeRecentColor_preserves (recent : List Str) (hex : Str) (h : RecentOk recent) :
    RecentOk (storeRecentColor recent hex) := by
  by_cases hv : isValidHex hex = true
  · rw [storeRecentColor_valid _ _ hv]
    have hf : (recent.filter (fun c => c ≠ hex)).length ≤ 5 :=
      le_trans (List.length_filter_le _ _) h.1
    have hnd := nodup_cons_filter recent hex h.2
    split
    · refine ⟨?_, hnd.sublist (List.dropLast_sublist _)⟩
      simp only [List.length_dropLast, List.length_cons]
      omega
    · rename_i hle
      exact ⟨by omega, hnd⟩
  · rw [storeRecentColor_invalid _ _ (by simpa using hv)]
    exact h

theorem foldl_storeRecentColor_ok (hexes : List Str) (recent : List Str) (h : RecentOk recent) :
    RecentOk (hexes.foldl storeRecentColor recent) := by
  induction hexes generalizing recent with
  | nil => exact h
  | cons x xs ih => exact ih _ (storeRecentColor_preserves recent x h)

/-- C11: starting from the empty history, after any finite sequence of
`storeRecentColor` calls with arbitrary arguments the history has at most five
entries and no duplicates; every single call preserves that bound. -/
theorem recent_bounded_nodup (hexes : List Str) :
    RecentOk (hexes.foldl storeRecentColor []) ∧
    ∀ (recent : List Str) (hex : Str), RecentOk recent → RecentOk (storeRecentColor recent hex) :=
  ⟨foldl_storeRecentColor_ok hexes [] ⟨by simp, List.nodup_nil⟩, storeRecentColor_preserves⟩

/-- C12: re-adding a valid colour that already occurs in a duplicate-free
history of at most five entries keeps the length, puts the colour at index 0
and leaves the other entries in their previous order. -/
theorem storeRecentColor_moves_front (history : List Str) (h : Str)
    (hnd : history.Nodup) (hlen : history.length ≤ 5) (hv : isValidHex h = true)
    (hmem : h ∈ history) :
    (storeRecentColor history h).length = history.length ∧
    (storeRecentColor history h).head? = some h ∧
    (storeRecentColor history h).tail = history.filter (fun c => c ≠ h) := by
  have hfe : history.filter (fun c => c ≠ h) = history.erase h := by
    rw [hnd.erase_eq_filter]
    congr 1
    funext c
    by_cases hc : c = h <;> simp [hc]
  have hl : (history.filter (fun c => c ≠ h)).length = history.length - 1 := by
    rw [hfe, List.length_erase_of_mem hmem]
  have hpos : 0 < history.length := List.length_pos_of_mem hmem
  rw [storeRecentColor_valid _ _ hv, if_neg (by simp only [List.length_cons]; omega)]
  refine ⟨by simp only [List.length_cons]; omega, rfl, rfl⟩

/-- Witness for C11: seven calls, one of them with an invalid colour and one
repeating an earlier colour. -/
theorem recent_bounded_nodup_witness :
    RecentOk
      (["#000001".toList, "#000002".toList, "oops".toList, "#000003".toList,
        "#000001".toList, "#000004".toList, "#000005".toList, "#000006".toList].foldl
        storeRecentColor []) :=
  (recent_bounded_nodup
    ["#000001".toList, "#000002".toList, "oops".toList, "#000003".toList,
      "#000001".toList, "#000004".toList, "#000005".toList, "#000006".toList]).1

/-- Witness for C12: the last of three colours is moved to the front. -/
theorem storeRecentColor_moves_front_witness :
    (storeRecentColor ["#000001".toList, "#000002".toList, "#000003".toList]
        "#000003".toList).length = 3 ∧
    (storeRecentColor ["#000001".toList, "#000002".toList, "#000003".toList]
        "#000003".toList).head? = some "#000003".toList ∧
    (storeRecentColor ["#000001".toList, "#000002".toList, "#000003".toList]
        "#000003".toList).tail =
      ["#000001".toList, "#000002".toList, "#000003".toList].filter
        (fun c => c ≠ "#000003".toList) :=
  storeRecentColor_moves_front
    ["#000001".toList, "#000002".toList, "#000003".toList] "#000003".toList
    (by decide) (by decide) (by decide) (by decide)

/-! ## The random colour -/

theorem digitChar_upper_hex : ∀ d, d < 16 → matchHexClass (Nat.digitChar d).toUpper = true := by
  decide

theorem toString16Aux_digits (fuel n : Nat) :
    ∀ c ∈ toString16Aux fuel n, ∃ d, d < 16 ∧ c = Nat.digitChar d := by
  induction fuel generalizing n with
  | zero => intro c hc; simp [toString16Aux] at hc
  | succ fuel ih =>
    intro c hc
    unfold toString16Aux at hc
    split at hc
    · rename_i h
      exact ⟨n, h, by simpa using hc⟩
    · rcases List.mem_append.mp hc with h1 | h2
      · exact ih _ c h1
      · exact ⟨n % 16, Nat.mod_lt _ (by decide), by simpa using h2⟩

theorem toString16Aux_length (fuel : Nat) :
    ∀ (n k : Nat), n < 16 ^ (k + 1) → (toString16Aux fuel n).length ≤ k + 1 := by
  induction fuel with
  | zero => intro n k _; simp [toString16Aux]
  | succ fuel ih =>
    intro n k hn
    unfold toString16Aux
    split
    · simp
    · rename_i h
      cases k with
      | zero => omega
      | succ k =>
        have : n / 16 < 16 ^ (k + 1) := by
          rw [Nat.div_lt_iff_lt_mul (by decide)]
          rw [pow_succ] at hn
          exact hn
        have := ih (n / 16) k this
        simp only [List.length_append, List.length_singleton]
        omega

theorem floorMul_lt (r : Draw) (k : Nat) (hk : 0 < k) : r.floorMul k < k := by
  unfold Draw.floorMul
  have hd : 0 < r.den := Nat.lt_of_le_of_lt (Nat.zero_le _) r.lt
  rw [Nat.div_lt_iff_lt_mul hd]
  exact Nat.mul_lt_mul_of_lt_of_le r.lt (le_refl k) hk |>.trans_eq (Nat.mul_comm _ _)

theorem upperChar_digit :
    ∀ d, d < 16 → upperChar (Nat.digitChar d) = [(Nat.digitChar d).toUpper] := by
  decide

theorem flatMap_eq_map (f : Char → Str) (g : Char → Char) (s : Str)
    (h : ∀ c ∈ s, f c = [g c]) : s.flatMap f = s.map g := by
  induction s with
  | nil => rfl
  | cons x xs ih =>
    rw [List.flatMap_cons, List.map_cons, h x (List.mem_cons_self _ _),
      ih (fun c hc => h c (List.mem_cons_of_mem _ hc))]
    rfl

theorem randomHex_valid (r : Draw) : isValidHex (randomHex r) = true := by
  have hlt : r.floorMul 16777215 < 16 ^ (5 + 1) :=
    lt_trans (floorMul_lt r 16777215 (by decide)) (by decide)
  have hlen := toString16Aux_length (r.floorMul 16777215 + 1) _ 5 hlt
  have hdig := toString16Aux_digits (r.floorMul 16777215 + 1) (r.floorMul 16777215)
  have hpad : ∀ b ∈ padStartZero 6 (toString16 (r.floorMul 16777215)),
      ∃ d, d < 16 ∧ b = Nat.digitChar d := by
    intro b hb
    unfold padStartZero toString16 at hb
    rcases List.mem_append.mp hb with h1 | h2
    · exact ⟨0, by decide, (List.mem_replicate.mp h1).2⟩
    · exact hdig b h2
  have hup : toUpperCase (padStartZero 6 (toString16 (r.floorMul 16777215))) =
      (padStartZero 6 (toString16 (r.floorMul 16777215))).map Char.toUpper := by
    unfold toUpperCase
    apply flatMap_eq_map
    intro c hc
    obtain ⟨d, hd, rfl⟩ := hpad c hc
    exact upperChar_digit d hd
  have key : matchRepeat matchHexClass 6
      (toUpperCase (padStartZero 6 (toString16 (r.floorMul 16777215)))) = some [] := by
    rw [hup, matchRepeat_nil_iff]
    refine ⟨?_, ?_⟩
    · unfold padStartZero toString16
      simp only [List.length_map, List.length_append, List.length_replicate]
      omega
    · intro c hc
      rw [List.mem_map] at hc
      obtain ⟨b, hb, rfl⟩ := hc
      obtain ⟨d, hd, rfl⟩ := hpad b hb
      exact digitChar_upper_hex d hd
  unfold randomHex isValidHex
  simp only [key]

/-! ## The colour handlers -/

theorem storeRecentColor_mem (recent : List Str) (hex c : Str)
    (hc : c ∈ storeRecentColor recent hex) :
    c ∈ recent ∨ (c = hex ∧ isValidHex hex = true) := by
  unfold storeRecentColor at hc
  by_cases hv : isValidHex hex = true
  · simp only [hv, Bool.not_true, Bool.false_eq_true, if_false] at hc
    have hc2 : c ∈ hex :: recent.filter (fun c => c ≠ hex) := by
      split at hc
      · exact List.mem_of_mem_dropLast hc
      · exact hc
    rcases List.mem_cons.mp hc2 with h | h
    · exact Or.inr ⟨h, hv⟩
    · exact Or.inl (List.mem_filter.mp h).1
  · simp only [hv, Bool.not_eq_true] at hc
    simp at hv
    simp [hv] at hc
    exact Or.inl hc

theorem storeRecentColor_all_valid (recent : List Str) (hex : Str)
    (h : ∀ c ∈ recent, isValidHex c = true) :
    ∀ c ∈ storeRecentColor recent hex, isValidHex c = true := by
  intro c hc
  rcases storeRecentColor_mem recent hex c hc with h1 | ⟨h2, h3⟩
  · exact h c h1
  · rw [h2]; exact h3

theorem autoUpdateCompiled_state (a : App) :
    (autoUpdateCompiled a).state = a.state ∧ (autoUpdateCompiled a).swatches = a.swatches := by
  unfold autoUpdateCompiled
  split <;> exact ⟨rfl, rfl⟩

theorem onPatternHexInput_invalid (a : App) (raw : Str)
    (h : isValidHex (normalizeHexInput raw) = false) :
    (onPatternHexInput a raw).state = a.state ∧ (onPatternHexInput a raw).swatches = a.swatches := by
  unfold onPatternHexInput
  simp only [h, Bool.false_eq_true, if_false]
  exact autoUpdateCompiled_state _

theorem onPatternHexInput_valid (a : App) (raw : Str)
    (h : isValidHex (normalizeHexInput raw) = true) :
    (onPatternHexInput a raw).state.pattern.hex = normalizeHexInput raw ∧
    (onPatternHexInput a raw).state.pattern.recent =
      storeRecentColor a.state.pattern.recent (normalizeHexInput raw) ∧
    (onPatternHexInput a raw).swatches =
      storeRecentColor a.state.pattern.recent (normalizeHexInput raw) := by
  unfold onPatternHexInput
  simp only [h, if_true]
  obtain ⟨h1, h2⟩ := autoUpdateCompiled_state
    (refreshEditorIn (renderRecentColors (storeRecentColorIn
      { a with patternHexValue := normalizeHexInput raw, patternHexInvalid := false,
               state := { a.state with pattern :=
                 { a.state.pattern with hex := normalizeHexInput raw } } }
      (normalizeHexInput raw))))
  rw [h1, h2]
  exact ⟨rfl, rfl, rfl⟩

theorem onPatternHexInput_ok (a : App) (raw : Str) (h : ColoursOk a) :
    ColoursOk (onPatternHexInput a raw) := by
  by_cases hv : isValidHex (normalizeHexInput raw) = true
  · obtain ⟨h1, h2, h3⟩ := onPatternHexInput_valid a raw hv
    refine ⟨Or.inr (by rw [h1]; exact hv), ?_, ?_⟩
    · rw [h3]; exact storeRecentColor_all_valid _ _ h.2.2
    · rw [h2]; exact storeRecentColor_all_valid _ _ h.2.2
  · obtain ⟨h1, h2⟩ := onPatternHexInput_invalid a raw (by simpa using hv)
    unfold ColoursOk HexOk
    rw [h1, h2]
    exact h

theorem onSwatchClick_ok (a : App) (i : Nat) (h : ColoursOk a) :
    ColoursOk (onSwatchClick a i) := by
  unfold onSwatchClick
  cases hc : a.swatches[i]? with
  | none => exact h
  | some color =>
    have hv : isValidHex color = true := h.2.1 color (List.getElem?_mem hc)
    have hall := storeRecentColor_all_valid a.state.pattern.recent color h.2.2
    exact ⟨Or.inr hv, hall, hall⟩

theorem onNewPrompt_ok (a : App) : ColoursOk (onNewPrompt a) :=
  ⟨Or.inl rfl, fun c hc => by simp [onNewPrompt] at hc, fun c hc => by simp [onNewPrompt] at hc⟩

/-! ## The randomizer -/

theorem isLocationalScene_ne_nil (s : Str) (h : isLocationalScene s = true) : s ≠ [] := by
  intro hs
  rw [hs] at h
  exact absurd h (by decide)

theorem refreshEditorIn_state (a : App) :
    (refreshEditorIn a).state = a.state ∧ (refreshEditorIn a).swatches = a.swatches :=
  ⟨rfl, rfl⟩

theorem onRandomix_scene (a : App) (d : Draws) :
    (onRandomix a d).state.scene = pickRandomName a.state.csvData.scenes d.scene := by
  unfold onRandomix
  simp only [refreshEditorIn, storeRecentColorIn, renderRecentColors]
  split_ifs <;> rfl

/-- C14: whatever the option lists and the random draws, when the scene the
randomizer picked is locational the resulting selection has no background, no
pattern type, no pattern colour and the default scale 40. -/
theorem randomix_locational (a : App) (d : Draws)
    (h : isLocationalScene (onRandomix a d).state.scene = true) :
    (onRandomix a d).state.background = [] ∧ (onRandomix a d).state.pattern.type = [] ∧
    (onRandomix a d).state.pattern.hex = [] ∧ (onRandomix a d).state.pattern.scale = 40 := by
  rw [onRandomix_scene] at h
  have hne := isLocationalScene_ne_nil _ h
  unfold onRandomix
  simp only [refreshEditorIn, storeRecentColorIn, renderRecentColors, h, hne, ne_eq,
    not_false_eq_true, decide_True, Bool.and_self, Bool.not_true, Bool.false_eq_true, if_false,
    and_self]

theorem onRandomix_ok (a : App) (d : Draws) (h : ColoursOk a) :
    ColoursOk (onRandomix a d) := by
  have hall := storeRecentColor_all_valid a.state.pattern.recent (randomHex d.hex) h.2.2
  unfold onRandomix
  simp only [refreshEditorIn, storeRecentColorIn, renderRecentColors]
  split_ifs
  · exact ⟨Or.inr (randomHex_valid d.hex), hall, hall⟩
  · exact ⟨Or.inl rfl, fun c hc => by simp at hc, h.2.2⟩
  · exact ⟨Or.inl rfl, fun c hc => by simp at hc, h.2.2⟩
  · exact ⟨Or.inl rfl, fun c hc => by simp at hc, h.2.2⟩

theorem step_ok (a : App) (e : Event) (h : ColoursOk a) : ColoursOk (step a e) := by
  cases e with
  | hexInput raw => exact onPatternHexInput_ok a raw h
  | swatchClick i => exact onSwatchClick_ok a i h
  | randomix d => exact onRandomix_ok a d h
  | newPrompt => exact onNewPrompt_ok a

theorem foldl_step_ok (events : List Event) (a : App) (h : ColoursOk a) :
    ColoursOk (events.foldl step a) := by
  induction events generalizing a with
  | nil => exact h
  | cons e es ih => exact ih _ (step_ok a e h)

theorem initialApp_ok (csv : CsvData) : ColoursOk (initialApp csv) :=
  ⟨Or.inl rfl, fun c hc => by simp [initialApp] at hc, fun c hc => by simp [initialApp] at hc⟩

/-- C13: in every state reached from the initial state through colour input,
swatch clicks, the randomizer and the new-prompt reset, the pattern colour is
empty or a valid hex colour; a colour input whose normalised text is not a
valid hex colour leaves the pattern colour and the recent colours unchanged. -/
theorem pattern_hex_always_valid (csv : CsvData) (events : List Event) :
    HexOk (run csv events) ∧
    ∀ (a : App) (raw : Str), isValidHex (normalizeHexInput raw) = false →
      (onPatternHexInput a raw).state.pattern.hex = a.state.pattern.hex ∧
      (onPatternHexInput a raw).state.pattern.recent = a.state.pattern.recent := by
  refine ⟨(foldl_step_ok events _ (initialApp_ok csv)).1, ?_⟩
  intro a raw h
  rw [(onPatternHexInput_invalid a raw h).1]
  exact ⟨rfl, rfl⟩

/-- Witness for C13: a valid input, an invalid one, a second valid one, a click
on the second swatch, the randomizer and a reset; and the invalid input `12`
on the initial state. -/
theorem pattern_hex_always_valid_witness :
    HexOk (run {}
      [Event.hexInput "ff00aa".toList, Event.hexInput "12".toList,
       Event.hexInput "#123456".toList, Event.swatchClick 1, Event.randomix lowDraws,
       Event.newPrompt]) ∧
    (onPatternHexInput (initialApp {}) "12".toList).state.pattern.hex =
      (initialApp {}).state.pattern.hex :=
  ⟨(pattern_hex_always_valid {}
      [Event.hexInput "ff00aa".toList, Event.hexInput "12".toList,
       Event.hexInput "#123456".toList, Event.swatchClick 1, Event.randomix lowDraws,
       Event.newPrompt]).1,
   ((pattern_hex_always_valid {} []).2 (initialApp {}) "12".toList (by decide)).1⟩

/-- Witness for C14 (scenario D): the only scene is `corridor`. -/
theorem randomix_locational_witness :
    isLocationalScene (onRandomix (initialApp corridorOptions) lowDraws).state.scene = true ∧
    (onRandomix (initialApp corridorOptions) lowDraws).state.background = [] ∧
    (onRandomix (initialApp corridorOptions) lowDraws).state.pattern.type = [] ∧
    (onRandomix (initialApp corridorOptions) lowDraws).state.pattern.hex = [] ∧
    (onRandomix (initialApp corridorOptions) lowDraws).state.pattern.scale = 40 :=
  ⟨by decide, randomix_locational (initialApp corridorOptions) lowDraws (by decide)⟩

/-- The chroma half of the rule holds: a generated pattern never comes with a
chroma background. -/
theorem randomix_pattern_not_chroma (a : App) (d : Draws)
    (h : (onRandomix a d).state.pattern.type ≠ []) :
    isChromaBackground (onRandomix a d).state.background = false := by
  revert h
  unfold onRandomix
  simp only [refreshEditorIn, storeRecentColorIn, renderRecentColors]
  split_ifs with h1 h2 h3
  · intro _
    have h4 : isChromaBackground (pickRandomName a.state.csvData.backgrounds d.background)
        = false ∧ d.patternGate.below 28 100 = true := by simpa using h3
    exact h4.1
  all_goals intro h; exact absurd rfl h

theorem pickRandomName_ne_nil (rows : List Row) (r : Draw) (hne : rows ≠ [])
    (hnames : ∀ row ∈ rows, row.name ≠ []) : pickRandomName rows r ≠ [] := by
  have hpos : 0 < rows.length := List.length_pos.mpr hne
  have hi := floorMul_lt r rows.length hpos
  unfold pickRandomName pickRandom
  rw [if_neg (by omega), List.getElem?_eq_getElem hi]
  exact hnames _ (List.getElem_mem _)

/-- With a non-empty background list whose names are non-empty, a generated
pattern does come with a background. -/
theorem randomix_pattern_has_background (a : App) (d : Draws)
    (hne : a.state.csvData.backgrounds ≠ [])
    (hnames : ∀ row ∈ a.state.csvData.backgrounds, row.name ≠ [])
    (h : (onRandomix a d).state.pattern.type ≠ []) :
    (onRandomix a d).state.background ≠ [] := by
  revert h
  unfold onRandomix
  simp only [refreshEditorIn, storeRecentColorIn, renderRecentColors]
  split_ifs
  · intro _
    exact pickRandomName_ne_nil _ _ hne hnames
  all_goals intro h; exact absurd rfl h

/-- C15 fails on the code: with an empty background list and draws that pass
both gates, the randomizer generates the pattern `grid` although no background
exists. -/
theorem randomix_pattern_without_background :
    (onRandomix (initialApp {}) lowDraws).state.pattern.type = "grid".toList ∧
    (onRandomix (initialApp {}) lowDraws).state.background = [] := by decide

/-! ## The recent colours of the reachable states -/

theorem onSwatchClick_recent (a : App) (i : Nat) :
    (onSwatchClick a i).state.pattern.recent = a.state.pattern.recent ∨
    ∃ hex, (onSwatchClick a i).state.pattern.recent = storeRecentColor a.state.pattern.recent hex := by
  unfold onSwatchClick
  cases a.swatches[i]? with
  | none => exact Or.inl rfl
  | some color => exact Or.inr ⟨color, rfl⟩

theorem onPatternHexInput_recent (a : App) (raw : Str) :
    (onPatternHexInput a raw).state.pattern.recent = a.state.pattern.recent ∨
    ∃ hex, (onPatternHexInput a raw).state.pattern.recent =
      storeRecentColor a.state.pattern.recent hex := by
  by_cases hv : isValidHex (normalizeHexInput raw) = true
  · exact Or.inr ⟨_, (onPatternHexInput_valid a raw hv).2.1⟩
  · exact Or.inl (by rw [(onPatternHexInput_invalid a raw (by simpa using hv)).1])

theorem onRandomix_recent (a : App) (d : Draws) :
    (onRandomix a d).state.pattern.recent = a.state.pattern.recent ∨
    ∃ hex, (onRandomix a d).state.pattern.recent =
      storeRecentColor a.state.pattern.recent hex := by
  unfold onRandomix
  simp only [refreshEditorIn, storeRecentColorIn, renderRecentColors]
  split_ifs
  · exact Or.inr ⟨_, rfl⟩
  all_goals exact Or.inl rfl

theorem step_recent_ok (a : App) (e : Event) (h : RecentOk a.state.pattern.recent) :
    RecentOk (step a e).state.pattern.recent := by
  have key : ∀ b : App, (b.state.pattern.recent = a.state.pattern.recent ∨
      ∃ hex, b.state.pattern.recent = storeRecentColor a.state.pattern.recent hex) →
      RecentOk b.state.pattern.recent := by
    intro b hb
    rcases hb with h1 | ⟨hex, h2⟩
    · rw [h1]; exact h
    · rw [h2]; exact storeRecentColor_preserves _ _ h
  cases e with
  | hexInput raw => exact key _ (onPatternHexInput_recent a raw)
  | swatchClick i => exact key _ (onSwatchClick_recent a i)
  | randomix d => exact key _ (onRandomix_recent a d)
  | newPrompt => exact ⟨by simp [step, onNewPrompt], by simp [step, onNewPrompt]⟩

theorem foldl_step_recent_ok (events : List Event) (a : App)
    (h : RecentOk a.state.pattern.recent) :
    RecentOk (events.foldl step a).state.pattern.recent := by
  induction events generalizing a with
  | nil => exact h
  | cons e es ih => exact ih _ (step_recent_ok a e h)

theorem run_recent_ok (csv : CsvData) (events : List Event) :
    RecentOk (run csv events).state.pattern.recent :=
  foldl_step_recent_ok events _ ⟨by simp [initialApp], by simp [initialApp]⟩

/-- C10: on every history the program can hold (the result of any sequence
of `storeRecentColor` calls from the empty history, and the recent colours of
every state reached through the events), `storeRecentColor` returns the first
five entries of `hex` prepended to the history with every occurrence of `hex`
removed when `hex` is valid, and the history unchanged when it is not. -/
theorem storeRecentColor_first_five (hex : Str) :
    (∀ (hexes : List Str),
      storeRecentColor (hexes.foldl storeRecentColor []) hex =
        if isValidHex hex = true then
          (hex :: (hexes.foldl storeRecentColor []).filter (fun c => c ≠ hex)).take 5
        else hexes.foldl storeRecentColor []) ∧
    (∀ (csv : CsvData) (events : List Event),
      (storeRecentColorIn (run csv events) hex).state.pattern.recent =
        if isValidHex hex = true then
          (hex :: (run csv events).state.pattern.recent.filter (fun c => c ≠ hex)).take 5
        else (run csv events).state.pattern.recent) :=
  ⟨fun hexes => storeRecentColor_take _ hex (foldl_storeRecentColor_ok hexes [] ⟨by simp, List.nodup_nil⟩).1,
   fun csv events => storeRecentColor_take _ hex (run_recent_ok csv events).1⟩

/-- Witness for C10: a sixth colour after five, and an invalid colour. -/
theorem storeRecentColor_first_five_witness :
    storeRecentColor
        (["#000001".toList, "#000002".toList, "#000003".toList, "#000004".toList,
          "#000005".toList].foldl storeRecentColor []) "#000006".toList =
      ["#000006".toList, "#000005".toList, "#000004".toList, "#000003".toList,
        "#000002".toList] ∧
    storeRecentColor
        (["#000001".toList, "#000002".toList].foldl storeRecentColor []) "oops".toList =
      (if isValidHex "oops".toList = true then
        ("oops".toList ::
          (["#000001".toList, "#000002".toList].foldl storeRecentColor []).filter
            (fun c => c ≠ "oops".toList)).take 5
      else ["#000001".toList, "#000002".toList].foldl storeRecentColor []) :=
  ⟨by decide,
   (storeRecentColor_first_five "oops".toList).1 ["#000001".toList, "#000002".toList]⟩

/-! ## Case mapping outside ASCII -/

/-- A scene spelled with the Kelvin sign is locational, as in JavaScript, and
the randomizer gives it neither background nor pattern. -/
theorem randomix_kelvin_market :
    isLocationalScene ['M', 'A', 'R', '\u212A', 'E', 'T'] = true ∧
    (onRandomix (initialApp kelvinOptions) lowDraws).state.background = [] ∧
    (onRandomix (initialApp kelvinOptions) lowDraws).state.pattern.type = [] := by
  decide

/-- The ligature U+FB00 upper-cases to `FF`, as in JavaScript: the input
U+FB00 followed by `00aa` is stored as `#FF00AA` and recorded. -/
theorem hex_input_ligature :
    normalizeHexInput ['\uFB00', '0', '0', 'a', 'a'] = "#FF00AA".toList ∧
    (onPatternHexInput (initialApp {}) ['\uFB00', '0', '0', 'a', 'a']).state.pattern.hex =
      "#FF00AA".toList ∧
    (onPatternHexInput (initialApp {}) ['\uFB00', '0', '0', 'a', 'a']).state.pattern.recent =
      ["#FF00AA".toList] := by
  decide

end PomprFun
